import Mathlib

/-!
Shallow embedding of the message-content pipeline of
`src/components/EmailViewer.js` (gmailFetcherFrontend): the content decoder
`decodeContent`, the part-tree walker `extractEmailContent` / `findParts`,
the header normalizer `getEmailHeaders`, the verification-link locator
`extractVerifyUrl`, and the status-sync channel (`connectWebSocket` and the
`onmessage` handler).

JS values that may be `undefined`/`null` are modelled with `Option`; a JS
exception escaping a function is modelled with an explicit error constructor.
Machine strings are Lean `String`s (JS strings of code units in 0..255 after
`atob` are represented by the characters of those code points).
-/

namespace GmailFetcher

/-- A header entry `{name, value}` of `payload.headers`; either field may be
absent in a malformed entry. -/
structure Header where
  name : Option String
  value : Option String

/-- The `body` object of a part; `data` is the transport-encoded payload,
possibly absent. -/
structure Body where
  data : Option String

/-- A node of the Gmail payload tree: `mimeType`, top-level `headers`,
optional `body`, and child `parts`.  An absent `parts` array behaves in the
source exactly like an empty one (the walker tests `part.parts &&
part.parts.length > 0`), so absence is modelled as `[]`. -/
inductive Part : Type where
  | mk (mimeType : Option String) (headers : Option (List Header))
      (body : Option Body) (parts : List Part)

/-- Field accessor for `part.mimeType`. -/
def Part.mimeType : Part → Option String
  | .mk m _ _ _ => m

/-- Field accessor for `part.headers`. -/
def Part.headers : Part → Option (List Header)
  | .mk _ h _ _ => h

/-- Field accessor for `part.body`. -/
def Part.body : Part → Option Body
  | .mk _ _ b _ => b

/-- Field accessor for `part.parts` (absent modelled as `[]`). -/
def Part.parts : Part → List Part
  | .mk _ _ _ ps => ps

/-- The JS optional chain `part.body?.data`. -/
def dataOf : Option Body → Option String
  | some b => b.data
  | none => none

/-- JS truthiness of `part.body?.data`: present and a non-empty string. -/
def truthyData (b : Option Body) : Bool :=
  match dataOf b with
  | some s => s != ""
  | none => false

/-! Content decoder (`decodeContent`).

The source applies the URL-safe substitution, then the browser primitive
`atob` (the WHATWG forgiving-base64 decode, which throws on invalid input),
then `quotedPrintable.decode` from the `quoted-printable` npm package (three
regex replacement passes, total and never throwing).  Any exception is
caught and the original string is returned. -/

/-- Value of a standard base64 alphabet character, `none` for anything else. -/
def b64Val (c : Char) : Option Nat :=
  if 'A' ≤ c ∧ c ≤ 'Z' then some (c.toNat - 'A'.toNat)
  else if 'a' ≤ c ∧ c ≤ 'z' then some (c.toNat - 'a'.toNat + 26)
  else if '0' ≤ c ∧ c ≤ '9' then some (c.toNat - '0'.toNat + 52)
  else if c = '+' then some 62
  else if c = '/' then some 63
  else none

/-- ASCII whitespace, removed by forgiving-base64 before decoding. -/
def isAsciiWs (c : Char) : Bool :=
  c = ' ' ∨ c = '\t' ∨ c = '\n' ∨ c = Char.ofNat 12 ∨ c = Char.ofNat 13

/-- Decode one trailing base64 chunk (4, 3 or 2 sextets) into bytes; chunks
of length 0 yield nothing and length 1 never reaches here (rejected before). -/
def b64Chunk : List Nat → List Nat
  | [a, b, c, d] => [a * 4 + b / 16, (b % 16) * 16 + c / 4, (c % 4) * 64 + d]
  | [a, b, c] => [a * 4 + b / 16, (b % 16) * 16 + c / 4]
  | [a, b] => [a * 4 + b / 16]
  | _ => []

/-- Decode a sextet sequence into bytes, 4 sextets at a time. -/
def b64Bytes : List Nat → List Nat
  | a :: b :: c :: d :: rest => b64Chunk [a, b, c, d] ++ b64Bytes rest
  | rest => b64Chunk rest

/-- Strip one or two trailing `=` padding characters when the length is a
multiple of 4, as forgiving-base64 prescribes. -/
def stripPad (l : List Char) : List Char :=
  if l.length % 4 = 0 then
    match l.reverse with
    | '=' :: '=' :: rest => rest.reverse
    | '=' :: rest => rest.reverse
    | _ => l
  else l

/-- The browser `atob` primitive (WHATWG forgiving-base64 decode): strip
ASCII whitespace, strip permissible padding, fail on length ≡ 1 (mod 4) or
on any character outside the base64 alphabet, else emit the decoded bytes as
a string of code points 0..255.  `none` models the `InvalidCharacterError`
it throws. -/
def atob (s : String) : Option String :=
  let d := stripPad (s.toList.filter (fun c => !(isAsciiWs c)))
  if d.length % 4 = 1 then none
  else
    match d.mapM b64Val with
    | none => none
    | some vs => some (String.mk ((b64Bytes vs).map Char.ofNat))

/-- Line-terminator characters for the JS multiline `$` anchor. -/
def isLineTerm (c : Char) : Bool :=
  c = '\n' ∨ c = '\r' ∨ c = Char.ofNat 0x2028 ∨ c = Char.ofNat 0x2029

/-- First pass of `quotedPrintable.decode`: the replacement
`replace(/[\t\x20]$/gm, '')` removes a single tab or space standing
immediately before a line terminator or at the end of the input. -/
def qpTrailingWs : List Char → List Char
  | [] => []
  | [c] => if c = '\t' ∨ c = ' ' then [] else [c]
  | c :: d :: rest =>
    if (c = '\t' ∨ c = ' ') ∧ isLineTerm d then qpTrailingWs (d :: rest)
    else c :: qpTrailingWs (d :: rest)

/-- Second pass of `quotedPrintable.decode`: the replacement
`replace(/=(?:\r\n?|\n|$)/g, '')` removes soft line breaks (`=` before CRLF,
CR, LF, or the end of the input). -/
def qpSoftBreaks : List Char → List Char
  | [] => []
  | '=' :: '\r' :: '\n' :: rest => qpSoftBreaks rest
  | '=' :: '\r' :: rest => qpSoftBreaks rest
  | '=' :: '\n' :: rest => qpSoftBreaks rest
  | ['='] => []
  | c :: rest => c :: qpSoftBreaks rest

/-- Value of a hexadecimal digit (both cases), `none` otherwise. -/
def hexVal (c : Char) : Option Nat :=
  if '0' ≤ c ∧ c ≤ '9' then some (c.toNat - '0'.toNat)
  else if 'a' ≤ c ∧ c ≤ 'f' then some (c.toNat - 'a'.toNat + 10)
  else if 'A' ≤ c ∧ c ≤ 'F' then some (c.toNat - 'A'.toNat + 10)
  else none

/-- Third pass of `quotedPrintable.decode`: the replacement
`replace(/=([a-fA-F0-9]{2})/g, ...)` turns each `=XX` escape into the
character with that code point; an `=` not followed by two hex digits is
kept verbatim and scanning resumes after it. -/
def qpHex : List Char → List Char
  | '=' :: a :: b :: rest =>
    match hexVal a, hexVal b with
    | some x, some y => Char.ofNat (16 * x + y) :: qpHex rest
    | _, _ => '=' :: qpHex (a :: b :: rest)
  | c :: rest => c :: qpHex rest
  | [] => []

/-- `quotedPrintable.decode` of the `quoted-printable` npm package: three
sequential regex replacement passes.  It is total: it never throws. -/
def qpDecode (s : String) : String :=
  String.mk (qpHex (qpSoftBreaks (qpTrailingWs s.toList)))

/-- The URL-safe substitution of the source: every `-` becomes `+` and every
`_` becomes `/` before the base64 decode. -/
def b64UrlFix (s : String) : String :=
  String.mk (s.toList.map (fun c => if c = '-' then '+' else if c = '_' then '/' else c))

/-- `decodeContent(encoded)`: falsy input (absent or empty) yields `""`;
otherwise substitute URL-safe characters, `atob`, then quoted-printable
decode, and on any exception (only `atob` can throw) return the original
`encoded` string unchanged. -/
def decodeContent (encoded : Option String) : String :=
  match encoded with
  | none => ""
  | some s =>
    if s = "" then ""
    else
      match atob (b64UrlFix s) with
      | none => s
      | some bytes => qpDecode bytes

/-! Part-tree walker (`extractEmailContent` with its inner `findParts`).
The closure mutates outer variables `text` and `html`; the state pair
`(text, html)` is threaded explicitly, children folded left to right as
`forEach` does. -/

mutual

/-- The inner closure `findParts(part)` acting on the state `(text, html)`:
a part with a plain-text mime type and truthy `body.data` overwrites `text`;
an HTML one overwrites `html`; otherwise a part with a non-empty `parts`
array is recursed into; anything else is skipped. -/
def findParts (st : String × String) : Part → String × String
  | .mk mt _ b ps =>
    if (mt = some "text/plain") ∧ truthyData b = true then
      (decodeContent (dataOf b), st.2)
    else if (mt = some "text/html") ∧ truthyData b = true then
      (st.1, decodeContent (dataOf b))
    else if 0 < ps.length then findPartsList st ps
    else st

/-- `parts.forEach(findParts)` threading the mutated state left to right. -/
def findPartsList (st : String × String) : List Part → String × String
  | [] => st
  | p :: rest => findPartsList (findParts st p) rest

end

/-- Result record of `extractEmailContent`. -/
structure Content where
  textContent : String
  htmlContent : String
deriving DecidableEq

/-- `extractEmailContent(payload)`: empty strings for an absent payload,
otherwise the final state of the `findParts` traversal started from
`("", "")`. -/
def extractEmailContent (payload : Option Part) : Content :=
  match payload with
  | none => ⟨"", ""⟩
  | some p => ⟨(findParts ("", "") p).1, (findParts ("", "") p).2⟩

/-! Specification-side view of the traversal: the leaf data strings the
walker would feed to the decoder, in depth-first children-in-order
visitation order, mirroring the branch structure of `findParts` exactly. -/

mutual

/-- Data strings of the plain-text (first component) and HTML (second
component) matched leaves of a part, in the walker's visitation order. -/
def leavesOf : Part → List String × List String
  | .mk mt _ b ps =>
    if (mt = some "text/plain") ∧ truthyData b = true then ([(dataOf b).getD ""], [])
    else if (mt = some "text/html") ∧ truthyData b = true then ([], [(dataOf b).getD ""])
    else if 0 < ps.length then leavesOfList ps
    else ([], [])

/-- Leaf data strings of a forest, children in order. -/
def leavesOfList : List Part → List String × List String
  | [] => ([], [])
  | p :: rest =>
    ((leavesOf p).1 ++ (leavesOfList rest).1, (leavesOf p).2 ++ (leavesOfList rest).2)

end

/-- Decode one leaf's data string as the walker does. -/
def decLeaf (s : String) : String := decodeContent (some s)

/-- The decoded last element of a leaf list, or the default when the list is
empty: the value a last-wins overwrite loop leaves behind. -/
def lastDec (l : List String) (d : String) : String :=
  ((l.map decLeaf).getLast?).getD d

/-! Verification-link locator (`extractVerifyUrl`): a faithful matcher for
the source regex, scheme then one-or-more run characters, then one of the
keywords, then greedily the rest of the run.  JS backtracking over this
pattern always ends the match at the end of the maximal run of characters
outside the excluded class, so the matcher computes that form directly via
an explicit search over the backtracking positions. -/

/-- JS regex whitespace class characters. -/
def isJsWs (c : Char) : Bool :=
  c = ' ' ∨ c = '\t' ∨ c = '\n' ∨ c = '\r' ∨ c = Char.ofNat 11 ∨ c = Char.ofNat 12 ∨
  c = Char.ofNat 0xa0 ∨ c = Char.ofNat 0x1680 ∨
  (0x2000 ≤ c.toNat ∧ c.toNat ≤ 0x200a) ∨
  c = Char.ofNat 0x2028 ∨ c = Char.ofNat 0x2029 ∨ c = Char.ofNat 0x202f ∨
  c = Char.ofNat 0x205f ∨ c = Char.ofNat 0x3000 ∨ c = Char.ofNat 0xfeff

/-- Membership in the character class of the pattern: not whitespace, not an
angle bracket, not a double quote. -/
def isRunChar (c : Char) : Bool :=
  !(isJsWs c) && c != '<' && c != '>' && c != '"'

/-- Case-insensitive literal match of a lowercase pattern at the head. -/
def ciIsPre : List Char → List Char → Bool
  | [], _ => true
  | _ :: _, [] => false
  | p :: ps, c :: cs => p == c.toLower && ciIsPre ps cs

/-- Length consumed by the scheme `https?://` at the head of the input
(the `?` is greedy but the two alternatives are mutually exclusive here),
case-insensitively; `none` when the scheme is not present. -/
def schemeLen (cs : List Char) : Option Nat :=
  if ciIsPre "https://".toList cs then some 8
  else if ciIsPre "http://".toList cs then some 7
  else none

/-- Length of the maximal prefix of run characters. -/
def runLen : List Char → Nat
  | [] => 0
  | c :: rest => if isRunChar c then runLen rest + 1 else 0

/-- Case-insensitive match of one of the keyword alternatives at the head. -/
def kwAt (cs : List Char) : Bool :=
  ciIsPre "verify".toList cs || ciIsPre "confirm".toList cs || ciIsPre "activate".toList cs

/-- Match of the pattern tail after the scheme: the one-or-more quantifier
consumes `n ≥ 1` run characters before the keyword (backtracking tries each
`n` up to the run length), and the trailing greedy star always extends the
match to the end of the maximal run, so the consumed length is the run
length whenever any such `n` admits a keyword. -/
def bodyLen (cs : List Char) : Option Nat :=
  let m := runLen cs
  if (List.range (m + 1)).any (fun n => decide (1 ≤ n) && kwAt (cs.drop n)) then some m
  else none

/-- Attempt of the whole pattern anchored at the head of `cs`, returning the
matched characters. -/
def matchAt (cs : List Char) : Option (List Char) :=
  match schemeLen cs with
  | none => none
  | some sl =>
    match bodyLen (cs.drop sl) with
    | none => none
    | some bl => some (cs.take (sl + bl))

/-- Leftmost match: the regex engine tries successive start positions and
returns the first success, which is what `match(...)[0]` observes. -/
def firstMatchAux : List Char → Option (List Char)
  | [] => none
  | c :: rest =>
    match matchAt (c :: rest) with
    | some m => some m
    | none => firstMatchAux rest

/-- The pattern attempted at start position `i` of `cs`. -/
def matchAtPos (cs : List Char) (i : Nat) : Option (List Char) :=
  matchAt (cs.drop i)

/-- The message object as `extractVerifyUrl` consumes it: only `payload` is
read (plus an identity used elsewhere). -/
structure Email where
  id : String
  payload : Option Part

/-- The search text of `extractVerifyUrl`: `textContent || htmlContent || ''`
over the extracted content of the message payload. -/
def searchTextOf (e : Email) : String :=
  if (extractEmailContent e.payload).textContent != "" then
    (extractEmailContent e.payload).textContent
  else if (extractEmailContent e.payload).htmlContent != "" then
    (extractEmailContent e.payload).htmlContent
  else ""

/-- `extractVerifyUrl(email)`: `null` for a falsy message, else the first
regex match in the search text, or `null` when there is none. -/
def extractVerifyUrl (email : Option Email) : Option String :=
  match email with
  | none => none
  | some e =>
    match firstMatchAux (searchTextOf e).toList with
    | some m => some (String.mk m)
    | none => none

/-! Header normalizer (`getEmailHeaders`) and the JS-object upsert shared
with the verification-status mapping. -/

/-- Outcome of a JS call: a value, or an exception escaping the function. -/
inductive JsResult (α : Type) where
  | ok (val : α)
  | raised
deriving DecidableEq

/-- JS object property assignment `obj[k] = v` (and the spread-with-override
`{...prev, [k]: v}`): overwrite in place when the key exists, append
otherwise; insertion order of the remaining keys is preserved. -/
def upsert (m : List (String × Option String)) (k : String) (v : Option String) :
    List (String × Option String) :=
  match m with
  | [] => [(k, v)]
  | (k', v') :: rest => if k' = k then (k, v) :: rest else (k', v') :: upsert rest k v

/-- The `forEach` loop of `getEmailHeaders`: each entry is destructured to
`{name, value}` and `name.toLowerCase()` is called, which throws a
`TypeError` when `name` is absent. -/
def headersFold (acc : List (String × Option String)) :
    List Header → JsResult (List (String × Option String))
  | [] => .ok acc
  | h :: rest =>
    match h.name with
    | none => .raised
    | some n => headersFold (upsert acc n.toLower h.value) rest

/-- `getEmailHeaders(payload)`: empty mapping when `payload?.headers` is
falsy, else the lower-cased last-wins fold over the header list. -/
def getEmailHeaders (payload : Option Part) : JsResult (List (String × Option String)) :=
  match payload with
  | none => .ok []
  | some p =>
    match p.headers with
    | none => .ok []
    | some hs => headersFold [] hs

/-! Status-sync channel.  `connectWebSocket` closes `ws.current` (when set)
before constructing the new socket, so the connection history of one
pipeline instance is a list of sockets in creation order in which only the
most recent can be live; `ws.current` is always the last created socket. -/

/-- Life-cycle state of one WebSocket object. -/
inductive ConnState where
  | connecting
  | opened
  | closed
deriving DecidableEq

/-- One WebSocket of the pipeline: the address it was created to serve (the
subscribe intent sent on open carries this address) and its state. -/
structure WsConn where
  email : String
  state : ConnState
deriving DecidableEq

/-- `socket.close()`. -/
def closeConn (c : WsConn) : WsConn := { c with state := ConnState.closed }

/-- Apply a function to `ws.current`, the last created socket, if any. -/
def setCurrent (f : WsConn → WsConn) : List WsConn → List WsConn
  | [] => []
  | [c] => [f c]
  | c :: d :: rest => c :: setCurrent f (d :: rest)

/-- `closeCurrent` is `if (ws.current) ws.current.close()`. -/
def closeCurrent : List WsConn → List WsConn :=
  setCurrent closeConn

/-- `connectWebSocket(email)`: close the current socket first, then create a
new connecting socket for `email` and make it current. -/
def connectWebSocket (conns : List WsConn) (email : String) : List WsConn :=
  closeCurrent conns ++ [⟨email, ConnState.connecting⟩]

/-- Externally observable operations on the connection history: a
`connectWebSocket` call, the `onopen` event (the connecting socket becomes
open and sends its subscribe intent), and the `onclose` event. -/
inductive WsOp where
  | subscribe (email : String)
  | openEvt
  | closeEvt

/-- One step of the connection history. -/
def applyOp (conns : List WsConn) : WsOp → List WsConn
  | .subscribe e => connectWebSocket conns e
  | .openEvt =>
    setCurrent
      (fun c => if c.state = ConnState.connecting then { c with state := ConnState.opened } else c)
      conns
  | .closeEvt => setCurrent closeConn conns

/-- The connection history of a pipeline instance after a sequence of
operations, starting from no socket. -/
def wsRun (ops : List WsOp) : List WsConn :=
  ops.foldl applyOp []

/-- State the `onmessage` handler can read and write: the
`verificationStatus` mapping and the connection's state. -/
structure ChannelState where
  verif : List (String × Option String)
  conn : ConnState
deriving DecidableEq

/-- An inbound channel event as seen after the `JSON.parse` attempt:
either not parseable as JSON, or an object whose relevant fields `type`,
`messageId`, `status` may each be absent. -/
inductive InboundEvent where
  | unparsable
  | parsed (type : Option String) (messageId : Option String) (status : Option String)

/-- The `ws.current.onmessage` handler: `JSON.parse` throws on unparseable
input (the handler has no catch, so the exception escapes); an event whose
`type` is `verification_update` spreads the previous mapping with the
computed key `[data.messageId]` — an absent `messageId` coerces to the
property key `"undefined"`; any other `type` leaves the state untouched.
The handler never changes the connection's state. -/
def onMessage (st : ChannelState) (ev : InboundEvent) : JsResult ChannelState :=
  match ev with
  | .unparsable => .raised
  | .parsed t mid status =>
    if t = some "verification_update" then
      .ok { st with verif := upsert st.verif (mid.getD "undefined") status }
    else .ok st

/-- The `setVerificationStatus` update performed by `fetchEmailDetails` on a
successful detail response: upsert of the response's id and status; entries
for other message ids are spread through unchanged. -/
def fetchDetailsUpdate (verif : List (String × Option String)) (id : String)
    (vs : Option String) : List (String × Option String) :=
  upsert verif id vs

/-! Concrete example values used by the example-based theorems. -/

/-- A plain-text leaf carrying the given data string. -/
def plainLeaf (s : String) : Part := Part.mk (some "text/plain") none (some ⟨some s⟩) []

/-- An HTML leaf carrying the given data string. -/
def htmlLeaf (s : String) : Part := Part.mk (some "text/html") none (some ⟨some s⟩) []

/-- A multipart container with two plain-text leaves decoding to `"A"` then
`"B"` in traversal order (one-character strings are not valid base64, so the
decoder's fallback returns them verbatim). -/
def payloadAB : Part :=
  Part.mk (some "multipart/alternative") none none [plainLeaf "A", plainLeaf "B"]

/-- A mixed part: its own `mimeType` is `text/plain` with truthy `body.data`,
and it also has a non-empty `parts` array holding an HTML leaf. -/
def mixedPart : Part :=
  Part.mk (some "text/plain") none (some ⟨some "A"⟩) [htmlLeaf "H"]

/-- A message whose text is a URL with the keyword immediately after the
scheme separator (the text is not valid base64, so it survives decoding
verbatim). -/
def emailVerifyHost : Email :=
  ⟨"m1", some (plainLeaf "http://verify.example.com")⟩

/-- The worked example of the specification. -/
def emailClick : Email :=
  ⟨"m2", some (plainLeaf "click http://x.test/verify?tok=1 now")⟩

/-- A message whose text has two candidate links. -/
def emailTwoLinks : Email :=
  ⟨"m3", some (plainLeaf "see http://a.example/confirm-x and http://b.example/verify-y")⟩

/-- A payload with a present, non-empty header list whose single entry lacks
the `name` field. -/
def badHeadersPart : Part :=
  Part.mk (some "text/plain") (some [⟨none, some "v"⟩]) none []

/-- A payload with no header list at all. -/
def noHeadersPart : Part :=
  Part.mk (some "text/plain") none none []

/-! Helper lemmas shared by the claim theorems. -/

/-- A truthy `body?.data` is a present string. -/
theorem truthyData_some {b : Option Body} (h : truthyData b = true) :
    ∃ s, dataOf b = some s := by
  unfold truthyData at h
  cases hb : dataOf b with
  | none => rw [hb] at h; simp at h
  | some s => exact ⟨s, rfl⟩

/-- The last-wins accumulator of an empty leaf list is the incoming value. -/
theorem lastDec_nil (d : String) : lastDec [] d = d := rfl

/-- Distribution of `Option.getD` over `Option.or`. -/
theorem or_getD (a b : Option String) (d : String) :
    (a.or b).getD d = a.getD (b.getD d) := by
  cases a <;> rfl

/-- Splitting the last-wins accumulator along an append. -/
theorem lastDec_append (l₁ l₂ : List String) (d : String) :
    lastDec (l₁ ++ l₂) d = lastDec l₂ (lastDec l₁ d) := by
  unfold lastDec
  rw [List.map_append, List.getLast?_append, or_getD]

mutual

/-- The walker's final state decodes the last plain-text (respectively HTML)
leaf of the subtree, keeping the incoming value when there is none. -/
theorem findParts_leaves (st : String × String) (p : Part) :
    findParts st p = (lastDec (leavesOf p).1 st.1, lastDec (leavesOf p).2 st.2) := by
  cases p with
  | mk mt hs b ps =>
    simp only [findParts, leavesOf]
    split_ifs with h1 h2 h3
    · obtain ⟨s, hs'⟩ := truthyData_some h1.2
      rw [hs']
      simp [lastDec, decLeaf]
    · obtain ⟨s, hs'⟩ := truthyData_some h2.2
      rw [hs']
      simp [lastDec, decLeaf]
    · exact findPartsList_leaves st ps
    · simp [lastDec]

/-- Forest version of `findParts_leaves`, children folded left to right. -/
theorem findPartsList_leaves (st : String × String) (ps : List Part) :
    findPartsList st ps =
      (lastDec (leavesOfList ps).1 st.1, lastDec (leavesOfList ps).2 st.2) := by
  cases ps with
  | nil => simp [findPartsList, leavesOfList, lastDec]
  | cons p rest =>
    simp only [findPartsList, leavesOfList]
    rw [findPartsList_leaves (findParts st p) rest, findParts_leaves st p]
    simp [lastDec_append]

end

/-- C1 counterexample: on the payload with two plain-text leaves decoding to
`"A"` then `"B"` in traversal order, `extractEmailContent` yields
`textContent = "B"`, not `"A"`: the source overwrites on every match, so the
first match does not win. -/
theorem extractContent_first_wins_cex :
    extractEmailContent (some payloadAB) = ⟨"B", ""⟩ ∧
    (extractEmailContent (some payloadAB)).textContent ≠ "A" := by
  decide

/-- C1 (amended): the walker is last-wins, not first-wins: for every payload,
`textContent` is the decoded data of the **last** plain-text leaf in
depth-first children-in-order traversal (empty when there is none), and
`htmlContent` likewise for the last HTML leaf; on the two-leaf example the
result is `"B"`. -/
theorem extractContent_last_wins :
    (∀ p : Part,
        extractEmailContent (some p) =
          ⟨lastDec (leavesOf p).1 "", lastDec (leavesOf p).2 ""⟩) ∧
    extractEmailContent (some payloadAB) = ⟨"B", ""⟩ := by
  constructor
  · intro p
    simp only [extractEmailContent]
    rw [findParts_leaves ("", "") p]
  · decide

/-- C3: `decodeContent` is total: absent and empty input yield the empty
string, and whenever the base64 stage fails (the only fallible stage — the
quoted-printable passes are total), the original encoded string is returned
unchanged. -/
theorem decodeContent_total_fallback :
    decodeContent none = "" ∧ decodeContent (some "") = "" ∧
    ∀ s : String, s ≠ "" → atob (b64UrlFix s) = none → decodeContent (some s) = s := by
  refine ⟨rfl, rfl, ?_⟩
  intro s h1 h2
  simp [decodeContent, h1, h2]

/-- C3 witness: the fallback clause applied to the concrete invalid-base64
input `"hi!"`. -/
theorem decodeContent_total_fallback_witness :
    decodeContent (some "hi!") = "hi!" :=
  decodeContent_total_fallback.2.2 "hi!" (by decide) (by decide)

/-- C4 counterexample: `"test"` is plain text with no special characters
(four ASCII letters), yet `decodeContent` does not return it unchanged: it
happens to be valid base64 and is decoded into other bytes. -/
theorem decode_plain_idempotence_cex :
    ("test".toList.all Char.isAlpha) = true ∧ decodeContent (some "test") ≠ "test" := by
  decide

/-- C4 (amended): decoding plain text returns it unchanged exactly when the
text is not valid forgiving-base64 after the URL-safe substitution; when the
text happens to be valid base64 it is decoded (base64, then
quoted-printable) instead, and in general differs from the input. -/
theorem decode_plain_only_when_not_base64 :
    (∀ s : String, s ≠ "" → atob (b64UrlFix s) = none → decodeContent (some s) = s) ∧
    (∀ s b : String, s ≠ "" → atob (b64UrlFix s) = some b →
      decodeContent (some s) = qpDecode b) ∧
    decodeContent (some "test") ≠ "test" := by
  refine ⟨?_, ?_, by decide⟩
  · intro s h1 h2
    simp [decodeContent, h1, h2]
  · intro s b h1 h2
    simp [decodeContent, h1, h2]

/-- C4 witness: the not-base64 clause applied to the concrete input
`"a,b"`. -/
theorem decode_plain_only_when_not_base64_witness :
    decodeContent (some "a,b") = "a,b" :=
  decode_plain_only_when_not_base64.1 "a,b" (by decide) (by decide)

/-- C9 counterexample: a mixed part whose own `mimeType` is `text/plain`
with truthy `body.data` and whose non-empty `parts` array holds an HTML leaf
is consumed as a leaf: its children are never visited, so `htmlContent`
stays empty even though the child alone would have produced `"H"`. -/
theorem mixed_part_not_recursed_cex :
    mixedPart.parts.length = 1 ∧
    extractEmailContent (some mixedPart) = ⟨"A", ""⟩ ∧
    extractEmailContent (some (htmlLeaf "H")) = ⟨"", "H"⟩ := by
  decide

/-- C9 (amended): a part with a present, non-empty `parts` array is recursed
into only when the part itself is not consumed as a matching leaf (no
plain-text or HTML `mimeType` with truthy `body.data`); a part with neither
a matching leaf form nor children is skipped silently, leaving the state
unchanged. -/
theorem container_recursion_guarded :
    (∀ (mt : Option String) (hs : Option (List Header)) (b : Option Body)
        (ps : List Part) (st : String × String),
        ¬((mt = some "text/plain") ∧ truthyData b = true) →
        ¬((mt = some "text/html") ∧ truthyData b = true) →
        0 < ps.length →
        findParts st (Part.mk mt hs b ps) = findPartsList st ps) ∧
    (∀ (mt : Option String) (hs : Option (List Header)) (b : Option Body)
        (st : String × String),
        ¬((mt = some "text/plain") ∧ truthyData b = true) →
        ¬((mt = some "text/html") ∧ truthyData b = true) →
        findParts st (Part.mk mt hs b []) = st) := by
  constructor
  · intro mt hs b ps st h1 h2 h3
    simp only [findParts]
    rw [if_neg h1, if_neg h2, if_pos h3]
  · intro mt hs b st h1 h2
    simp only [findParts]
    rw [if_neg h1, if_neg h2, if_neg (by decide : ¬(0 < ([] : List Part).length))]

/-- C9 witness: the recursion clause applied to a concrete non-leaf
container with one child. -/
theorem container_recursion_guarded_witness :
    findParts ("", "") (Part.mk (some "multipart/mixed") none none [plainLeaf "X"]) =
      findPartsList ("", "") [plainLeaf "X"] :=
  container_recursion_guarded.1 (some "multipart/mixed") none none [plainLeaf "X"] ("", "")
    (by decide) (by decide) (by decide)

/-- C10: `getEmailHeaders` raises on a payload whose present, non-empty
header list has an entry without a `name` field (`name.toLowerCase()` throws
there), while an absent payload or an absent header list returns the empty
mapping. -/
theorem getEmailHeaders_raises_on_nameless :
    getEmailHeaders (some badHeadersPart) = JsResult.raised ∧
    (badHeadersPart.headers.getD []).length = 1 ∧
    getEmailHeaders none = JsResult.ok [] ∧
    getEmailHeaders (some noHeadersPart) = JsResult.ok [] := by
  decide

/-! Lookup behaviour of the JS-object upsert. -/

/-- Upserting a key makes its lookup return the new value. -/
theorem lookup_upsert_self (m : List (String × Option String)) (k : String)
    (v : Option String) : List.lookup k (upsert m k v) = some v := by
  induction m with
  | nil =>
    simp only [upsert]
    rw [List.lookup_cons, beq_self_eq_true]
  | cons hd t ih =>
    obtain ⟨k', v'⟩ := hd
    simp only [upsert]
    by_cases hk : k' = k
    · subst hk
      rw [if_pos rfl, List.lookup_cons, beq_self_eq_true]
    · rw [if_neg hk, List.lookup_cons, beq_eq_false_iff_ne.mpr (Ne.symm hk)]
      exact ih

/-- Upserting one key leaves the lookup of every other key unchanged. -/
theorem lookup_upsert_other (m : List (String × Option String)) (k mid : String)
    (v : Option String) (h : k ≠ mid) :
    List.lookup k (upsert m mid v) = List.lookup k m := by
  induction m with
  | nil =>
    simp only [upsert]
    rw [List.lookup_cons, beq_eq_false_iff_ne.mpr h]
  | cons hd t ih =>
    obtain ⟨k', v'⟩ := hd
    simp only [upsert]
    by_cases hk : k' = mid
    · subst hk
      rw [if_pos rfl, List.lookup_cons, List.lookup_cons, beq_eq_false_iff_ne.mpr h]
    · rw [if_neg hk, List.lookup_cons, List.lookup_cons]
      cases hkk : (k == k') with
      | true => rfl
      | false => exact ih

/-- C2 counterexample: a well-parsed `verification_update` event missing
`messageId` does not leave the mapping unchanged — it inserts an entry under
the coerced property key `"undefined"` — and a non-parseable event makes the
handler raise (there is no catch around `JSON.parse`). -/
theorem channel_malformed_events_cex :
    onMessage ⟨[], ConnState.opened⟩
        (InboundEvent.parsed (some "verification_update") none (some "pending")) =
      JsResult.ok ⟨[("undefined", some "pending")], ConnState.opened⟩ ∧
    ([("undefined", some "pending")] : List (String × Option String)) ≠ [] ∧
    onMessage ⟨[], ConnState.opened⟩ InboundEvent.unparsable = JsResult.raised := by
  decide

/-- C2 (amended): only events with an unrecognized tag are dropped silently
(state unchanged); a non-parseable event raises out of the handler; a
`verification_update` event missing `messageId` upserts the key
`"undefined"`; and the handler never alters the connection state of any
event it survives. -/
theorem channel_malformed_events :
    (∀ (st : ChannelState) (t mid status : Option String),
        t ≠ some "verification_update" →
        onMessage st (InboundEvent.parsed t mid status) = JsResult.ok st) ∧
    (∀ st : ChannelState, onMessage st InboundEvent.unparsable = JsResult.raised) ∧
    (∀ (st : ChannelState) (status : Option String),
        onMessage st (InboundEvent.parsed (some "verification_update") none status) =
          JsResult.ok ⟨upsert st.verif "undefined" status, st.conn⟩) ∧
    (∀ (st : ChannelState) (ev : InboundEvent) (st' : ChannelState),
        onMessage st ev = JsResult.ok st' → st'.conn = st.conn) := by
  refine ⟨?_, fun st => rfl, fun st status => rfl, ?_⟩
  · intro st t mid status h
    simp [onMessage, h]
  · intro st ev st' h
    cases ev with
    | unparsable => exact absurd h (by simp [onMessage])
    | parsed t mid status =>
      simp only [onMessage] at h
      by_cases ht : t = some "verification_update"
      · rw [if_pos ht] at h
        injection h with h'
        rw [← h']
      · rw [if_neg ht] at h
        injection h with h'
        rw [← h']

/-- C2 witness: the unrecognized-tag clause applied to a concrete event. -/
theorem channel_malformed_events_witness :
    onMessage ⟨[], ConnState.opened⟩ (InboundEvent.parsed (some "email_update") none none) =
      JsResult.ok ⟨[], ConnState.opened⟩ :=
  channel_malformed_events.1 ⟨[], ConnState.opened⟩ (some "email_update") none none (by decide)

/-- C7: a `verification_update` event carrying `{messageId, status}` upserts
the mapping (the updated id reads back the new status, every other id is
untouched), the selection-change update of a detail fetch preserves entries
for other ids, and the `m1` confirmed-then-failed sequence ends at
`"failed"`. -/
theorem verification_status_upsert :
    (∀ (st : ChannelState) (mid : String) (status : Option String),
        onMessage st (InboundEvent.parsed (some "verification_update") (some mid) status) =
          JsResult.ok ⟨upsert st.verif mid status, st.conn⟩) ∧
    (∀ (m : List (String × Option String)) (mid : String) (v : Option String),
        List.lookup mid (upsert m mid v) = some v) ∧
    (∀ (m : List (String × Option String)) (k mid : String) (v : Option String),
        k ≠ mid → List.lookup k (upsert m mid v) = List.lookup k m) ∧
    (∀ (m : List (String × Option String)) (k id : String) (vs : Option String),
        k ≠ id → List.lookup k (fetchDetailsUpdate m id vs) = List.lookup k m) ∧
    (onMessage ⟨[], ConnState.opened⟩
        (InboundEvent.parsed (some "verification_update") (some "m1") (some "confirmed")) =
      JsResult.ok ⟨[("m1", some "confirmed")], ConnState.opened⟩) ∧
    (onMessage ⟨[("m1", some "confirmed")], ConnState.opened⟩
        (InboundEvent.parsed (some "verification_update") (some "m1") (some "failed")) =
      JsResult.ok ⟨[("m1", some "failed")], ConnState.opened⟩) := by
  refine ⟨fun st mid status => rfl, lookup_upsert_self, lookup_upsert_other,
    fun m k id vs h => lookup_upsert_other m k id vs h, by decide, by decide⟩

/-- C7 witness: the other-ids-preserved clause applied to a concrete
mapping. -/
theorem verification_status_upsert_witness :
    List.lookup "m2" (upsert [("m2", some "pending")] "m1" (some "failed")) =
      List.lookup "m2" [("m2", some "pending")] :=
  verification_status_upsert.2.2.1 [("m2", some "pending")] "m2" "m1" (some "failed")
    (by decide)

/-! Connection-history invariant: in every reachable history all sockets
but the most recent are closed, because `connectWebSocket` closes the
current socket before creating the next one. -/

/-- Every socket before the last one is closed. -/
def tailClosed (conns : List WsConn) : Prop :=
  ∀ c ∈ conns.dropLast, c.state = ConnState.closed

/-- A non-empty list stays non-empty under `setCurrent`. -/
theorem setCurrent_ne_nil (f : WsConn → WsConn) (a : WsConn) (t : List WsConn) :
    setCurrent f (a :: t) ≠ [] := by
  cases t <;> simp [setCurrent]

/-- `setCurrent` only touches the last element. -/
theorem dropLast_setCurrent (f : WsConn → WsConn) :
    ∀ l : List WsConn, (setCurrent f l).dropLast = l.dropLast := by
  intro l
  induction l with
  | nil => rfl
  | cons a t ih =>
    cases t with
    | nil => rfl
    | cons b t2 =>
      simp only [setCurrent]
      rw [List.dropLast_cons_of_ne_nil (setCurrent_ne_nil f b t2),
        List.dropLast_cons_of_ne_nil (by simp), ih]

/-- After closing the current socket of a history whose tail is closed,
every socket is closed. -/
theorem closeCurrent_all_closed :
    ∀ l : List WsConn, tailClosed l → ∀ c ∈ closeCurrent l, c.state = ConnState.closed := by
  intro l
  induction l with
  | nil => intro _ c hc; simp [closeCurrent, setCurrent] at hc
  | cons a t ih =>
    cases t with
    | nil =>
      intro _ c hc
      simp only [closeCurrent, setCurrent, List.mem_cons, List.not_mem_nil, or_false] at hc
      rw [hc]
      rfl
    | cons b t2 =>
      intro h c hc
      simp only [closeCurrent, setCurrent] at hc
      rcases List.mem_cons.mp hc with h1 | h2
      · rw [h1]
        exact h a (by rw [List.dropLast_cons_of_ne_nil (by simp)]; exact List.mem_cons_self a _)
      · refine ih ?_ c h2
        intro x hx
        exact h x (by rw [List.dropLast_cons_of_ne_nil (by simp)]; exact List.mem_cons_of_mem a hx)

/-- Each operation preserves the invariant. -/
theorem tailClosed_applyOp {conns : List WsConn} (h : tailClosed conns) (op : WsOp) :
    tailClosed (applyOp conns op) := by
  cases op with
  | subscribe e =>
    intro c hc
    simp only [applyOp, connectWebSocket] at hc
    rw [List.dropLast_concat] at hc
    exact closeCurrent_all_closed conns h c hc
  | openEvt =>
    intro c hc
    simp only [applyOp] at hc
    rw [dropLast_setCurrent] at hc
    exact h c hc
  | closeEvt =>
    intro c hc
    simp only [applyOp] at hc
    rw [dropLast_setCurrent] at hc
    exact h c hc

/-- The invariant holds in every reachable history. -/
theorem tailClosed_wsRun (ops : List WsOp) : tailClosed (wsRun ops) := by
  suffices h : ∀ (ops : List WsOp) (conns : List WsConn),
      tailClosed conns → tailClosed (List.foldl applyOp conns ops) by
    exact h ops [] (by intro c hc; simp at hc)
  intro ops
  induction ops with
  | nil => intro conns h; exact h
  | cons op rest ih =>
    intro conns h
    exact ih (applyOp conns op) (tailClosed_applyOp h op)

/-- `setCurrent` on a history ending in `c` maps exactly `c`. -/
theorem setCurrent_concat (f : WsConn → WsConn) :
    ∀ (l : List WsConn) (c : WsConn), setCurrent f (l ++ [c]) = l ++ [f c] := by
  intro l
  induction l with
  | nil => intro c; rfl
  | cons a t ih =>
    intro c
    cases t with
    | nil => rfl
    | cons b t2 =>
      exact congrArg (List.cons a) (ih c)

/-- C8: after `subscribe(a)` then `subscribe(b)` from any reachable history,
exactly one socket is live (not closed), it is the current (last created)
one and is scoped to `b`, and the socket created for `a` — the previous
current one, closed by `connectWebSocket` before the new socket is
constructed — sits immediately before it, closed. -/
theorem subscribe_twice_single_live (ops : List WsOp) (a b : String) :
    (applyOp (applyOp (wsRun ops) (WsOp.subscribe a)) (WsOp.subscribe b)).filter
        (fun c => c.state != ConnState.closed) = [⟨b, ConnState.connecting⟩] ∧
    (applyOp (applyOp (wsRun ops) (WsOp.subscribe a)) (WsOp.subscribe b)).getLast? =
      some ⟨b, ConnState.connecting⟩ ∧
    (applyOp (applyOp (wsRun ops) (WsOp.subscribe a)) (WsOp.subscribe b)).dropLast.getLast? =
      some ⟨a, ConnState.closed⟩ := by
  have hstep :
      applyOp (applyOp (wsRun ops) (WsOp.subscribe a)) (WsOp.subscribe b) =
        (closeCurrent (wsRun ops) ++ [⟨a, ConnState.closed⟩]) ++
          [⟨b, ConnState.connecting⟩] := by
    show connectWebSocket (connectWebSocket (wsRun ops) a) b = _
    unfold connectWebSocket
    rw [show closeCurrent (closeCurrent (wsRun ops) ++ [⟨a, ConnState.connecting⟩]) =
        closeCurrent (wsRun ops) ++ [⟨a, ConnState.closed⟩] from
      setCurrent_concat closeConn (closeCurrent (wsRun ops)) ⟨a, ConnState.connecting⟩]
  rw [hstep]
  refine ⟨?_, ?_, ?_⟩
  · rw [List.filter_append, List.filter_append]
    rw [List.filter_eq_nil_iff.mpr ?_]
    · rfl
    · intro c hc
      have hcl : c.state = ConnState.closed :=
        closeCurrent_all_closed (wsRun ops) (tailClosed_wsRun ops) c hc
      simp [hcl]
  · exact List.getLast?_concat _
  · rw [List.dropLast_concat]
    exact List.getLast?_concat _

/-! Characterization of the regex matcher. -/

/-- The pattern never matches at the empty suffix. -/
theorem matchAt_nil : matchAt [] = none := rfl

/-- The body of the pattern succeeds exactly when some backtracking split
puts at least one run character between the scheme and a keyword, and the
consumed length is then the full maximal run. -/
theorem bodyLen_eq_some (cs : List Char) (bl : Nat) :
    bodyLen cs = some bl ↔
      (∃ n, 1 ≤ n ∧ n ≤ runLen cs ∧ kwAt (cs.drop n) = true) ∧ bl = runLen cs := by
  unfold bodyLen
  by_cases ha :
      (List.range (runLen cs + 1)).any (fun n => decide (1 ≤ n) && kwAt (cs.drop n)) = true
  · rw [if_pos ha]
    simp only [Option.some.injEq]
    constructor
    · intro h
      refine ⟨?_, h.symm⟩
      obtain ⟨n, hn, hp⟩ := List.any_eq_true.mp ha
      rw [Bool.and_eq_true, decide_eq_true_eq] at hp
      exact ⟨n, hp.1, Nat.lt_succ_iff.mp (List.mem_range.mp hn), hp.2⟩
    · intro h
      exact h.2.symm
  · rw [if_neg ha]
    constructor
    · intro h
      cases h
    · intro ⟨⟨n, h1, h2, h3⟩, _⟩
      refine absurd (List.any_eq_true.mpr ⟨n, List.mem_range.mpr (Nat.lt_succ_of_le h2), ?_⟩) ha
      rw [Bool.and_eq_true, decide_eq_true_eq]
      exact ⟨h1, h3⟩

/-- Full characterization of a match attempt anchored at the head: the
scheme must be present, a keyword must occur at an offset of at least one
run character past the scheme separator, and the match always extends to
the end of the maximal run. -/
theorem matchAt_eq_some (cs m : List Char) :
    matchAt cs = some m ↔
      ∃ sl, schemeLen cs = some sl ∧
        (∃ n, 1 ≤ n ∧ n ≤ runLen (cs.drop sl) ∧ kwAt ((cs.drop sl).drop n) = true) ∧
        m = cs.take (sl + runLen (cs.drop sl)) := by
  constructor
  · intro hm
    unfold matchAt at hm
    cases h : schemeLen cs with
    | none =>
      rw [h] at hm
      cases hm
    | some sl =>
      rw [h] at hm
      dsimp only [] at hm
      cases hb : bodyLen (cs.drop sl) with
      | none =>
        rw [hb] at hm
        cases hm
      | some bl =>
        rw [hb] at hm
        injection hm with hm'
        obtain ⟨hex, hbl⟩ := (bodyLen_eq_some _ _).mp hb
        subst hbl
        exact ⟨sl, rfl, hex, hm'.symm⟩
  · rintro ⟨sl, hsl, hex, hm⟩
    unfold matchAt
    rw [hsl]
    dsimp only []
    have hb : bodyLen (cs.drop sl) = some (runLen (cs.drop sl)) :=
      (bodyLen_eq_some _ _).mpr ⟨hex, rfl⟩
    rw [hb, hm]

/-- C5 counterexample: on the message whose search text is
`"http://verify.example.com"` — keyword immediately after the scheme
separator — `extractVerifyUrl` finds no match, because the one-or-more
quantifier demands a character between `://` and the keyword. -/
theorem verify_pattern_gap_cex :
    searchTextOf emailVerifyHost = "http://verify.example.com" ∧
    extractVerifyUrl (some emailVerifyHost) = none := by
  decide

/-- C5 (amended): the pattern matches the maximal run after an `http`/`https`
scheme exactly when one of the keywords occurs at offset at least one past
the scheme separator (case-insensitively), so a keyword immediately after
`://` is not matched, while the same URL with any run character before the
keyword is. -/
theorem verify_pattern_requires_gap :
    (∀ cs m : List Char,
        matchAt cs = some m ↔
          ∃ sl, schemeLen cs = some sl ∧
            (∃ n, 1 ≤ n ∧ n ≤ runLen (cs.drop sl) ∧ kwAt ((cs.drop sl).drop n) = true) ∧
            m = cs.take (sl + runLen (cs.drop sl))) ∧
    firstMatchAux "http://w.verify.example.com".toList =
      some "http://w.verify.example.com".toList ∧
    firstMatchAux "http://verify.example.com".toList = none := by
  exact ⟨matchAt_eq_some, by decide, by decide⟩

/-- A successful scan result is the match at some position all of whose
predecessors fail. -/
theorem firstMatchAux_some :
    ∀ cs m : List Char, firstMatchAux cs = some m →
      ∃ i, matchAtPos cs i = some m ∧ ∀ j, j < i → matchAtPos cs j = none := by
  intro cs
  induction cs with
  | nil =>
    intro m h
    cases h
  | cons c rest ih =>
    intro m h
    rw [firstMatchAux] at h
    cases hm : matchAt (c :: rest) with
    | some m' =>
      rw [hm] at h
      injection h with h'
      subst h'
      exact ⟨0, by simpa [matchAtPos] using hm, fun j hj => absurd hj (Nat.not_lt_zero j)⟩
    | none =>
      rw [hm] at h
      obtain ⟨i, hi, hlt⟩ := ih m h
      refine ⟨i + 1, ?_, ?_⟩
      · simpa [matchAtPos, List.drop_succ_cons] using hi
      · intro j hj
        cases j with
        | zero => simpa [matchAtPos] using hm
        | succ j' =>
          simpa [matchAtPos, List.drop_succ_cons] using hlt j' (Nat.lt_of_succ_lt_succ hj)

/-- A failed scan means the pattern fails at every position. -/
theorem firstMatchAux_none :
    ∀ cs : List Char, firstMatchAux cs = none → ∀ i, matchAtPos cs i = none := by
  intro cs
  induction cs with
  | nil =>
    intro _ i
    simp [matchAtPos, List.drop_nil, matchAt_nil]
  | cons c rest ih =>
    intro h i
    rw [firstMatchAux] at h
    cases hm : matchAt (c :: rest) with
    | some m' =>
      rw [hm] at h
      cases h
    | none =>
      rw [hm] at h
      cases i with
      | zero => simpa [matchAtPos] using hm
      | succ i' => simpa [matchAtPos, List.drop_succ_cons] using ih h i'

/-- C6: the locator searches `textContent` when non-empty, else
`htmlContent`, else the empty string; a returned URL is the match at the
left-most position of the search text (every earlier position fails), and
absence means no position matches; on the worked example it returns
`"http://x.test/verify?tok=1"`, and with two candidate links the earlier
one wins. -/
theorem locator_leftmost :
    (∀ e : Email, (extractEmailContent e.payload).textContent ≠ "" →
        searchTextOf e = (extractEmailContent e.payload).textContent) ∧
    (∀ e : Email, (extractEmailContent e.payload).textContent = "" →
        (extractEmailContent e.payload).htmlContent ≠ "" →
        searchTextOf e = (extractEmailContent e.payload).htmlContent) ∧
    (∀ e : Email, (extractEmailContent e.payload).textContent = "" →
        (extractEmailContent e.payload).htmlContent = "" → searchTextOf e = "") ∧
    (∀ (e : Email) (m : String), extractVerifyUrl (some e) = some m →
        ∃ i, matchAtPos (searchTextOf e).toList i = some m.toList ∧
          ∀ j, j < i → matchAtPos (searchTextOf e).toList j = none) ∧
    (∀ e : Email, extractVerifyUrl (some e) = none →
        ∀ i, matchAtPos (searchTextOf e).toList i = none) ∧
    extractVerifyUrl (some emailClick) = some "http://x.test/verify?tok=1" ∧
    extractVerifyUrl (some emailTwoLinks) = some "http://a.example/confirm-x" := by
  refine ⟨?_, ?_, ?_, ?_, ?_, by decide, by decide⟩
  · intro e h
    rw [searchTextOf, if_pos (bne_iff_ne.mpr h)]
  · intro e h1 h2
    rw [searchTextOf, if_neg ?_, if_pos (bne_iff_ne.mpr h2)]
    rw [h1]
    decide
  · intro e h1 h2
    rw [searchTextOf, if_neg ?_, if_neg ?_]
    · rw [h2]
      decide
    · rw [h1]
      decide
  · intro e m h
    rw [extractVerifyUrl] at h
    cases hf : firstMatchAux (searchTextOf e).toList with
    | none =>
      rw [hf] at h
      cases h
    | some l =>
      rw [hf] at h
      injection h with h'
      subst h'
      have hl : (String.mk l).toList = l := rfl
      rw [hl]
      exact firstMatchAux_some _ l hf
  · intro e h i
    rw [extractVerifyUrl] at h
    cases hf : firstMatchAux (searchTextOf e).toList with
    | some l =>
      rw [hf] at h
      cases h
    | none =>
      exact firstMatchAux_none _ hf i

/-- C6 witness: the left-most clause applied to the worked example. -/
theorem locator_leftmost_witness :
    ∃ i, matchAtPos (searchTextOf emailClick).toList i =
        some "http://x.test/verify?tok=1".toList ∧
      ∀ j, j < i → matchAtPos (searchTextOf emailClick).toList j = none :=
  locator_leftmost.2.2.2.1 emailClick "http://x.test/verify?tok=1" (by decide)

end GmailFetcher
